import Mathlib

/-!
The note gate of `usb_midi_host.cpp`.

A shallow embedding of `src/usb_midi_host.cpp`.

* A `std::vector<unsigned char>` is a `List Nat` whose elements are below 256.
* The C `int`s of the gate (`status`, `channel`, `midi_note`, `velocity`) are read from
  `unsigned char`s, so they are never negative; they are natural numbers here and `&`, `|`
  are the bitwise operations of `Nat`.  Storing an `int` into an `unsigned char`
  (`push_back`) is `% 256`.
* Every effect the program has on the outside world (a call into the MIDI library, a line
  written to `std::cout`, `sigaction`, `exit`) is recorded, in order, in `World.trace`.
-/

namespace UsbMidiHost

/-! ## Data model -/

/-- The constant `NOTE_ON` (`0x90`). -/
def NOTE_ON : Nat := 0x90

/-- The constant `NOTE_OFF` (`0x80`). -/
def NOTE_OFF : Nat := 0x80

/-- The enumeration `playing_state`: `NOT_PLAYING`, `PLAYING`. -/
inductive playing_state where
  | NOT_PLAYING
  | PLAYING
  deriving DecidableEq, Repr

open playing_state

/-- The exceptions the program can raise: `std::out_of_range` from `vector::at`. -/
inductive Exception where
  | out_of_range
  deriving DecidableEq, Repr

/-- One observable effect of the program. -/
inductive Event where
  /-- The call `sigaction(SIGINT, &sa, NULL)` with `sa.sa_handler = sigint_handler`. -/
  | sigaction_sigint
  /-- One statement `std::cout << ... << std::endl;`, as the text it writes. -/
  | cout (text : String)
  /-- The call `midi_out->sendMessage(&message)`. -/
  | sendMessage (message : List Nat)
  /-- The statement `midi_out = new RtMidiOut()`. -/
  | new_midi_out
  /-- The statement `midi_in = new RtMidiIn()`. -/
  | new_midi_in
  /-- The call `error.printMessage()` of a caught `RtMidiError`. -/
  | printMessage
  /-- The call `midi_out->openPort(port_out)`, with the port number the library receives. -/
  | openPort_out (portNumber : Nat)
  /-- The call `midi_in->openPort(port_in)`, with the port number the library receives. -/
  | openPort_in (portNumber : Nat)
  /-- The call `midi_in->setCallback(&get_message)`. -/
  | setCallback
  /-- The call `midi_in->ignoreTypes(sysex, time, sense)`. -/
  | ignoreTypes (midiSysex midiTime midiSense : Bool)
  /-- The statement `delete midi_out`. -/
  | delete_midi_out
  /-- The statement `delete midi_in`. -/
  | delete_midi_in
  /-- The call `exit(code)`: the process terminates. -/
  | exit (code : Int)
  /-- The loop `while(true) ;` of `main`: the process spins for ever. -/
  | spin
  deriving DecidableEq, Repr

/-- The globals `int state`, `int port_out`, `int port_in`, and the effects performed so
far, oldest first. -/
structure World where
  state : playing_state
  port_out : Int
  port_in : Int
  trace : List Event
  deriving DecidableEq, Repr

/-- The start of the process: `int state = NOT_PLAYING;`, `int port_out = 0;`,
`int port_in = 0;` and nothing done yet. -/
def World.initial : World := ⟨NOT_PLAYING, 0, 0, []⟩

/-- Append one effect to the trace. -/
def World.emit (w : World) (e : Event) : World := { w with trace := w.trace ++ [e] }

/-- The message of a `sendMessage` effect. -/
def Event.sent? : Event → Option (List Nat)
  | .sendMessage m => some m
  | _ => none

/-- The messages passed to `midi_out->sendMessage` so far, oldest first. -/
def World.sent (w : World) : List (List Nat) := w.trace.filterMap Event.sent?

/-- Where a call stands when it ends: the world it leaves, and the exception that left it,
if one did. -/
structure Result where
  world : World
  exn : Option Exception
  deriving DecidableEq, Repr

/-! ## The source functions -/

/-- The bounds-checked read `std::vector<unsigned char>::at`. -/
def vector_at (v : List Nat) (i : Nat) : Except Exception Nat :=
  match v.get? i with
  | some b => .ok b
  | none => .error .out_of_range

/-- Source: `void play_note(int status, int channel, int midi_note, int velocity)`. -/
def play_note (w : World) (status channel midi_note velocity : Nat) : World :=
  let message : List Nat := []
  let message := message ++ [(status ||| channel) % 256]
  let message := message ++ [midi_note % 256]
  let message := message ++ [velocity % 256]
  w.emit (.sendMessage message)

/-- Source: `int is_noise(int channel, int midi_note, int velocity)`. -/
def is_noise (_channel midi_note velocity : Nat) : Nat :=
  if velocity ≠ 62 then 1
  else if midi_note < 20 ∨ midi_note > 108 then 1
  else 0

/-- Source: `void sigint_handler(int sig)`.  The vector `message` is built and dropped: the function
has no `sendMessage` call. -/
def sigint_handler (w : World) (_sig : Int) : World :=
  let message : List Nat := []
  let message := message ++ [176]
  let message := message ++ [120]
  let _message := message ++ [0]
  let w := w.emit .delete_midi_out
  let w := w.emit .delete_midi_in
  w.emit (.exit 1)

/-- Source: `void get_message(double deltatime, std::vector<unsigned char> *message,
void *userData)`.  The parameters `deltatime` and `userData` are not used by the body.
The two `if` statements of the body run one after the other, as in the source: `none` from
the first one is a `return`. -/
def get_message (w : World) (message : List Nat) : Result :=
  let w := w.emit .sigaction_sigint
  match vector_at message 0 with
  | .error e => ⟨w, some e⟩
  | .ok status =>
  match vector_at message 0 with
  | .error e => ⟨w, some e⟩
  | .ok c0 =>
  let channel := c0 &&& 0x0F
  match vector_at message 1 with
  | .error e => ⟨w, some e⟩
  | .ok byte1 =>
  match vector_at message 2 with
  | .error e => ⟨w, some e⟩
  | .ok byte2 =>
  let midi_note := byte1
  let velocity := byte2
  let first : Option World :=
    if status &&& 0xF0 = NOTE_ON then
      if w.state = PLAYING then none
      else if is_noise channel midi_note velocity ≠ 0 then none
      else
        let w := w.emit (.cout ("NOTE_ON: " ++ toString midi_note ++ "\n"))
        let w := { w with state := PLAYING }
        some (play_note w status channel midi_note velocity)
    else some w
  match first with
  | none => ⟨w, none⟩
  | some w =>
  if status &&& 0xF0 = NOTE_OFF then
    if w.state = NOT_PLAYING then ⟨w, none⟩
    else
      let midi_note := byte1
      let w := { w with state := NOT_PLAYING }
      let velocity := 0
      let w := w.emit (.cout (", NOTE_OFF: " ++ toString midi_note ++ "\n"))
      ⟨play_note w status channel midi_note velocity, none⟩
  else ⟨w, none⟩

/-- The input callback run on a sequence of incoming messages, one call of `get_message`
per message, oldest first.  An exception that leaves the callback ends the run. -/
def run (w : World) : List (List Nat) → Result
  | [] => ⟨w, none⟩
  | message :: rest =>
    match get_message w message with
    | ⟨w1, none⟩ => run w1 rest
    | ⟨w1, some e⟩ => ⟨w1, some e⟩

/-- A message whose status byte has the high nibble `NOTE_ON`. -/
def is_note_on (m : List Nat) : Bool := m.getD 0 0 &&& 0xF0 == NOTE_ON

/-- A message whose status byte has the high nibble `NOTE_OFF`. -/
def is_note_off (m : List Nat) : Bool := m.getD 0 0 &&& 0xF0 == NOTE_OFF

/-- The (channel, note) pair a note message is about. -/
def key (m : List Nat) : Nat × Nat := (m.getD 0 0 &&& 0x0F, m.getD 1 0)

/-- The emitted messages alternate: note-on where `expect_on` says so, then note-off, and
so on. -/
def alternates : Bool → List (List Nat) → Bool
  | _, [] => true
  | expect_on, m :: rest =>
    (if expect_on then is_note_on m else is_note_off m) && alternates (!expect_on) rest

/-- The (channel, note) pairs sustained downstream after the messages `out` were emitted:
those with a note-on in `out` that no later note-off of the same pair follows.  Each pair
is listed once. -/
def sustained : List (List Nat) → List (Nat × Nat)
  | [] => []
  | m :: rest =>
    if is_note_on m && !rest.any (fun m' => is_note_off m' && key m' == key m) then
      (sustained rest).insert (key m)
    else sustained rest

/-- Every note-off of the list carries the channel and note of the message right before
it. -/
def offs_match : List (List Nat) → Bool
  | m :: m' :: rest => (!is_note_off m' || key m' == key m) && offs_match (m' :: rest)
  | _ => true

/-- The invariant of the gate: what was sent alternates from a note-on, and the state is
`PLAYING` exactly when an odd number of messages was sent. -/
def gate_invariant (w : World) : Prop :=
  alternates true w.sent = true ∧ (w.state = PLAYING ↔ w.sent.length % 2 = 1)

theorem or_and_self_eq (a b : Nat) : a ||| (a &&& b) = a := by
  apply Nat.eq_of_testBit_eq
  intro i
  simp only [Nat.testBit_or, Nat.testBit_and]
  cases a.testBit i <;> simp

theorem mod_256_and_240 (a : Nat) : a % 256 &&& 0xF0 = a &&& 0xF0 := by
  have h : a % 256 = a &&& 255 := (Nat.and_pow_two_sub_one_eq_mod a 8).symm
  rw [h, Nat.and_assoc]
  rfl

theorem mod_256_and_15 (a : Nat) : a % 256 &&& 0x0F = a &&& 0x0F := by
  have h : a % 256 = a &&& 255 := (Nat.and_pow_two_sub_one_eq_mod a 8).symm
  rw [h, Nat.and_assoc]
  rfl

/-- The status byte `play_note` stores has the event type and the channel of `status`. -/
theorem status_byte_nibbles (b0 : Nat) :
    (b0 ||| (b0 &&& 0x0F)) % 256 &&& 0xF0 = b0 &&& 0xF0 ∧
    (b0 ||| (b0 &&& 0x0F)) % 256 &&& 0x0F = b0 &&& 0x0F := by
  rw [or_and_self_eq]
  exact ⟨mod_256_and_240 b0, mod_256_and_15 b0⟩

/-! ## One call of `get_message` -/

/-- What one call on a message of at least three bytes does to the state and the output. -/
theorem get_message_three (w : World) (b0 b1 b2 : Nat) (tl : List Nat) :
    (get_message w (b0 :: b1 :: b2 :: tl)).exn = none ∧
    (((get_message w (b0 :: b1 :: b2 :: tl)).world.sent = w.sent ∧
        (get_message w (b0 :: b1 :: b2 :: tl)).world.state = w.state) ∨
      (w.state = NOT_PLAYING ∧ b0 &&& 0xF0 = NOTE_ON ∧
        (get_message w (b0 :: b1 :: b2 :: tl)).world.state = PLAYING ∧
        (get_message w (b0 :: b1 :: b2 :: tl)).world.sent =
          w.sent ++ [[(b0 ||| (b0 &&& 0x0F)) % 256, b1 % 256, b2 % 256]]) ∨
      (w.state = PLAYING ∧ b0 &&& 0xF0 = NOTE_OFF ∧
        (get_message w (b0 :: b1 :: b2 :: tl)).world.state = NOT_PLAYING ∧
        (get_message w (b0 :: b1 :: b2 :: tl)).world.sent =
          w.sent ++ [[(b0 ||| (b0 &&& 0x0F)) % 256, b1 % 256, 0]])) := by
  simp only [NOTE_ON, NOTE_OFF]
  by_cases hon : b0 &&& 0xF0 = 0x90
  · have hoff : ¬ b0 &&& 0xF0 = 0x80 := by rw [hon]; decide
    cases hs : w.state
    · by_cases hn : is_noise (b0 &&& 0x0F) b1 b2 = 0
      · simp [get_message, vector_at, World.emit, NOTE_ON, NOTE_OFF, hon, hoff, hs, hn, play_note, World.sent,
          Event.sent?]
      · simp [get_message, vector_at, World.emit, NOTE_ON, NOTE_OFF, hon, hs, hn, World.sent, Event.sent?]
    · simp [get_message, vector_at, World.emit, NOTE_ON, NOTE_OFF, hon, hs, World.sent,
        Event.sent?]
  · by_cases hoff : b0 &&& 0xF0 = 0x80
    · cases hs : w.state
      · simp [get_message, vector_at, World.emit, NOTE_ON, NOTE_OFF, hon, hoff, hs, World.sent, Event.sent?]
      · simp [get_message, vector_at, World.emit, NOTE_ON, NOTE_OFF, hon, hoff, hs, play_note, World.sent,
          Event.sent?]
    · simp [get_message, vector_at, World.emit, NOTE_ON, NOTE_OFF, hon, hoff, World.sent, Event.sent?]

/-- C1: a note-on (any channel) with velocity 62 and note in 20..108, arriving when the
state is `NOT_PLAYING`, is sent on exactly as it came, byte for byte, as the only message
of the call, and the state becomes `PLAYING`; the status byte that `play_note` rebuilds
(`status | channel`) is the incoming one. -/
theorem note_on_accepted (w : World) (b0 b1 b2 : Nat) (hb0 : b0 < 256)
    (hon : b0 &&& 0xF0 = NOTE_ON) (hv : b2 = 62) (hlo : 20 ≤ b1) (hhi : b1 ≤ 108)
    (hs : w.state = NOT_PLAYING) :
    (get_message w [b0, b1, b2]).exn = none ∧
    (get_message w [b0, b1, b2]).world.sent = w.sent ++ [[b0, b1, b2]] ∧
    (get_message w [b0, b1, b2]).world.state = PLAYING ∧
    (b0 ||| (b0 &&& 0x0F)) % 256 = b0 := by
  subst hv
  simp only [NOTE_ON] at hon
  have hn : is_noise (b0 &&& 0x0F) b1 62 = 0 := by
    unfold is_noise
    simp
    omega
  have hb1 : b1 % 256 = b1 := Nat.mod_eq_of_lt (by omega)
  have hst : (b0 ||| (b0 &&& 0x0F)) % 256 = b0 := by
    rw [or_and_self_eq]
    exact Nat.mod_eq_of_lt hb0
  simp only [Nat.reduceAnd] at hst hn
  simp [get_message, vector_at, World.emit, NOTE_ON, NOTE_OFF, hon, hs, hn, play_note,
    World.sent, Event.sent?, hb1, hst]

theorem note_on_accepted_witness :
    (get_message World.initial [0x90, 60, 62]).exn = none ∧
    (get_message World.initial [0x90, 60, 62]).world.sent =
      World.initial.sent ++ [[0x90, 60, 62]] ∧
    (get_message World.initial [0x90, 60, 62]).world.state = PLAYING ∧
    (0x90 ||| (0x90 &&& 0x0F)) % 256 = 0x90 :=
  note_on_accepted World.initial 0x90 60 62 (by decide) (by decide) rfl (by decide)
    (by decide) rfl

/-- C2: a note-on that arrives while the state is `PLAYING`, or whose velocity is not 62,
or whose note is below 20 or above 108, sends nothing and leaves the state as it was. -/
theorem note_on_rejected (w : World) (b0 b1 b2 : Nat) (hon : b0 &&& 0xF0 = NOTE_ON)
    (h : w.state = PLAYING ∨ b2 ≠ 62 ∨ b1 < 20 ∨ b1 > 108) :
    (get_message w [b0, b1, b2]).exn = none ∧
    (get_message w [b0, b1, b2]).world.sent = w.sent ∧
    (get_message w [b0, b1, b2]).world.state = w.state := by
  simp only [NOTE_ON] at hon
  by_cases hs : w.state = PLAYING
  · simp [get_message, vector_at, World.emit, NOTE_ON, NOTE_OFF, hon, hs, World.sent,
      Event.sent?]
  · have hn : ¬ is_noise (b0 &&& 0x0F) b1 b2 = 0 := by
      unfold is_noise
      rcases h with h | h | h | h
      · exact absurd h hs
      · simp [h]
      · by_cases hv : b2 = 62 <;> simp [hv, h]
      · by_cases hv : b2 = 62 <;> simp [hv, h]
    simp only [Nat.reduceAnd] at hn
    simp [get_message, vector_at, World.emit, NOTE_ON, NOTE_OFF, hon, hs, hn, World.sent,
      Event.sent?]

theorem note_on_rejected_witness :
    (get_message World.initial [0x90, 60, 100]).exn = none ∧
    (get_message World.initial [0x90, 60, 100]).world.sent = World.initial.sent ∧
    (get_message World.initial [0x90, 60, 100]).world.state = World.initial.state :=
  note_on_rejected World.initial 0x90 60 100 (by decide) (Or.inr (Or.inl (by decide)))

/-- C3: a note-off, whatever its note and velocity, arriving when the state is `PLAYING`,
is sent on as the only message of the call with its second data byte forced to 0, and the
state becomes `NOT_PLAYING`. -/
theorem note_off_accepted (w : World) (b0 b1 b2 : Nat) (hb0 : b0 < 256) (hb1 : b1 < 256)
    (hoff : b0 &&& 0xF0 = NOTE_OFF) (hs : w.state = PLAYING) :
    (get_message w [b0, b1, b2]).exn = none ∧
    (get_message w [b0, b1, b2]).world.sent = w.sent ++ [[b0, b1, 0]] ∧
    (get_message w [b0, b1, b2]).world.state = NOT_PLAYING := by
  simp only [NOTE_OFF] at hoff
  have hb1' : b1 % 256 = b1 := Nat.mod_eq_of_lt hb1
  have hst : (b0 ||| (b0 &&& 0x0F)) % 256 = b0 := by
    rw [or_and_self_eq]
    exact Nat.mod_eq_of_lt hb0
  simp only [Nat.reduceAnd] at hst
  simp [get_message, vector_at, World.emit, NOTE_ON, NOTE_OFF, hoff, hs, play_note,
    World.sent, Event.sent?, hb1', hst]

theorem note_off_accepted_witness :
    (get_message ⟨PLAYING, 0, 0, []⟩ [0x80, 60, 100]).exn = none ∧
    (get_message ⟨PLAYING, 0, 0, []⟩ [0x80, 60, 100]).world.sent =
      (World.sent ⟨PLAYING, 0, 0, []⟩) ++ [[0x80, 60, 0]] ∧
    (get_message ⟨PLAYING, 0, 0, []⟩ [0x80, 60, 100]).world.state = NOT_PLAYING :=
  note_off_accepted ⟨PLAYING, 0, 0, []⟩ 0x80 60 100 (by decide) (by decide) (by decide) rfl

/-- C5: a note-off that arrives while the state is `NOT_PLAYING`, and a message whose
event type is neither note-on nor note-off in either state, sends nothing and leaves the
state as it was. -/
theorem ignored_message_frame (w : World) (b0 b1 b2 : Nat)
    (h : (b0 &&& 0xF0 = NOTE_OFF ∧ w.state = NOT_PLAYING) ∨
      (b0 &&& 0xF0 ≠ NOTE_ON ∧ b0 &&& 0xF0 ≠ NOTE_OFF)) :
    (get_message w [b0, b1, b2]).exn = none ∧
    (get_message w [b0, b1, b2]).world.sent = w.sent ∧
    (get_message w [b0, b1, b2]).world.state = w.state := by
  simp only [NOTE_ON, NOTE_OFF] at h
  rcases h with ⟨hoff, hs⟩ | ⟨hon, hoff⟩
  · simp [get_message, vector_at, World.emit, NOTE_ON, NOTE_OFF, hoff, hs, World.sent,
      Event.sent?]
  · simp [get_message, vector_at, World.emit, NOTE_ON, NOTE_OFF, hon, hoff, World.sent,
      Event.sent?]

theorem ignored_message_frame_witness :
    ((get_message World.initial [0x80, 60, 0]).exn = none ∧
      (get_message World.initial [0x80, 60, 0]).world.sent = World.initial.sent ∧
      (get_message World.initial [0x80, 60, 0]).world.state = World.initial.state) ∧
    ((get_message ⟨PLAYING, 0, 0, []⟩ [0xB0, 120, 0]).exn = none ∧
      (get_message ⟨PLAYING, 0, 0, []⟩ [0xB0, 120, 0]).world.sent =
        World.sent ⟨PLAYING, 0, 0, []⟩ ∧
      (get_message ⟨PLAYING, 0, 0, []⟩ [0xB0, 120, 0]).world.state = PLAYING) :=
  ⟨ignored_message_frame World.initial 0x80 60 0 (Or.inl ⟨by decide, rfl⟩),
    ignored_message_frame ⟨PLAYING, 0, 0, []⟩ 0xB0 120 0 (Or.inr ⟨by decide, by decide⟩)⟩

/-- C7: on a message of three bytes, whatever the bytes and whatever the state,
`get_message` ends without an exception: the three bounds-checked reads succeed and the
gate has no other way to fail. -/
theorem get_message_total (w : World) (b0 b1 b2 : Nat) :
    vector_at [b0, b1, b2] 0 = .ok b0 ∧ vector_at [b0, b1, b2] 1 = .ok b1 ∧
    vector_at [b0, b1, b2] 2 = .ok b2 ∧ (get_message w [b0, b1, b2]).exn = none :=
  ⟨rfl, rfl, rfl, (get_message_three w b0 b1 b2 []).1⟩

/-- A message shorter than three bytes makes one of the reads raise, with only the
`sigaction` call done. -/
theorem get_message_short (w : World) (message : List Nat) (h : message.length < 3) :
    get_message w message = ⟨w.emit .sigaction_sigint, some .out_of_range⟩ := by
  match message, h with
  | [], _ => rfl
  | [_], _ => rfl
  | [_, _], _ => rfl
  | _ :: _ :: _ :: _, h => simp at h; omega

/-- C10: on a message of fewer than three bytes `get_message` raises `out_of_range` from
its bounds-checked reads, before the gate: nothing is sent, nothing is printed, and the
state is unchanged (the only effect is the `sigaction` call that precedes the reads); and
`get_message` raises only on such a message. -/
theorem short_message_raises (w : World) (message : List Nat) :
    (message.length < 3 →
      (get_message w message).exn = some .out_of_range ∧
      (get_message w message).world.sent = w.sent ∧
      (get_message w message).world.state = w.state ∧
      (get_message w message).world.trace = w.trace ++ [.sigaction_sigint]) ∧
    ((get_message w message).exn ≠ none → message.length < 3) := by
  constructor
  · intro h
    rw [get_message_short w message h]
    simp [World.emit, World.sent, Event.sent?]
  · intro h
    match message with
    | [] => simp
    | [_] => simp
    | [_, _] => simp
    | b0 :: b1 :: b2 :: tl => exact absurd (get_message_three w b0 b1 b2 tl).1 h

theorem short_message_raises_witness :
    ((get_message ⟨PLAYING, 0, 0, []⟩ [0x80, 60]).exn = some .out_of_range ∧
      (get_message ⟨PLAYING, 0, 0, []⟩ [0x80, 60]).world.sent =
        World.sent ⟨PLAYING, 0, 0, []⟩ ∧
      (get_message ⟨PLAYING, 0, 0, []⟩ [0x80, 60]).world.state = PLAYING ∧
      (get_message ⟨PLAYING, 0, 0, []⟩ [0x80, 60]).world.trace = [] ++ [.sigaction_sigint]) ∧
    [0x90].length < 3 :=
  ⟨(short_message_raises ⟨PLAYING, 0, 0, []⟩ [0x80, 60]).1 (by decide),
    (short_message_raises World.initial [0x90]).2 (by decide)⟩

/-- What `sigint_handler` does: the two `delete`s and `exit(1)`, and no `sendMessage`. -/
theorem sigint_handler_trace (w : World) (sig : Int) :
    (sigint_handler w sig).trace = w.trace ++ [.delete_midi_out, .delete_midi_in, .exit 1] ∧
    (sigint_handler w sig).sent = w.sent := by
  simp [sigint_handler, World.emit, World.sent, Event.sent?]

/-- C6, as the code runs: after one accepted note-on, with the handler installed and a
note sounding, `sigint_handler` (SIGINT is signal 2) releases the two handles and exits;
the only message ever sent is the note-on, and "All Sound Off" `[176, 120, 0]` is not
among the effects. -/
theorem sigint_handler_sends_no_all_sound_off :
    (sigint_handler (get_message World.initial [0x90, 60, 62]).world 2).trace =
      [.sigaction_sigint, .cout "NOTE_ON: 60\n", .sendMessage [0x90, 60, 62],
        .delete_midi_out, .delete_midi_in, .exit 1] ∧
    (sigint_handler (get_message World.initial [0x90, 60, 62]).world 2).sent =
      [[0x90, 60, 62]] ∧
    Event.sendMessage [176, 120, 0] ∉
      (sigint_handler (get_message World.initial [0x90, 60, 62]).world 2).trace := by
  decide

/-! ## The command line -/

/-- No message is both a note-on and a note-off. -/
theorem not_on_of_off (m : List Nat) (h : is_note_off m = true) : is_note_on m = false := by
  simp only [is_note_off, is_note_on, NOTE_ON, NOTE_OFF, beq_iff_eq] at *
  rw [h]
  decide

theorem alternates_snoc (e : Bool) (l : List (List Nat)) (m : List Nat) :
    alternates e (l ++ [m]) =
      (alternates e l && (if e = decide (l.length % 2 = 0) then is_note_on m else is_note_off m)) := by
  induction l generalizing e with
  | nil => cases e <;> simp [alternates]
  | cons a l ih =>
    have hpar : (l.length + 1) % 2 = 0 ↔ ¬ l.length % 2 = 0 := by omega
    cases e <;> by_cases hl : l.length % 2 = 0 <;>
      simp [alternates, ih, hpar, hl, Bool.and_assoc]

theorem gate_invariant_initial : gate_invariant World.initial := by
  simp [gate_invariant, World.initial, World.sent, alternates]

theorem gate_invariant_step (w : World) (b0 b1 b2 : Nat) (tl : List Nat)
    (hw : gate_invariant w) : gate_invariant (get_message w (b0 :: b1 :: b2 :: tl)).world := by
  obtain ⟨halt, hst⟩ := hw
  obtain ⟨-, h⟩ := get_message_three w b0 b1 b2 tl
  rcases h with ⟨hsent, hstate⟩ | ⟨hs, hon, hstate, hsent⟩ | ⟨hs, hoff, hstate, hsent⟩
  · simp only [gate_invariant, hsent, hstate]
    exact ⟨halt, hst⟩
  · have hev : w.sent.length % 2 = 0 := by
      have : ¬ w.sent.length % 2 = 1 := fun hodd => by
        have := hst.2 hodd
        rw [hs] at this
        cases this
      omega
    have hm : is_note_on [(b0 ||| (b0 &&& 0x0F)) % 256, b1 % 256, b2 % 256] = true := by
      simp only [is_note_on, List.getD_cons_zero, beq_iff_eq]
      rw [(status_byte_nibbles b0).1]
      exact hon
    refine ⟨?_, ?_⟩
    · rw [hsent, alternates_snoc, halt]
      simp [hev, hm]
    · rw [hsent, hstate]
      simp only [List.length_append, List.length_singleton, true_iff]
      omega
  · have hodd : w.sent.length % 2 = 1 := hst.1 hs
    have hm : is_note_off [(b0 ||| (b0 &&& 0x0F)) % 256, b1 % 256, 0] = true := by
      simp only [is_note_off, List.getD_cons_zero, beq_iff_eq]
      rw [(status_byte_nibbles b0).1]
      exact hoff
    refine ⟨?_, ?_⟩
    · rw [hsent, alternates_snoc, halt]
      simp [hodd, hm]
    · rw [hsent, hstate]
      simp only [List.length_append, List.length_singleton]
      constructor
      · intro h
        cases h
      · intro h
        omega

/-- A run over messages of three bytes never raises and keeps the invariant. -/
theorem run_keeps_invariant (msgs : List (List Nat)) (h3 : ∀ m ∈ msgs, m.length = 3)
    (w : World) (hw : gate_invariant w) :
    (run w msgs).exn = none ∧ gate_invariant (run w msgs).world := by
  induction msgs generalizing w with
  | nil => exact ⟨rfl, hw⟩
  | cons m rest ih =>
    have hm : m.length = 3 := h3 m (List.mem_cons_self _ _)
    match m, hm with
    | [b0, b1, b2], _ =>
      have hex := (get_message_three w b0 b1 b2 []).1
      have hinv := gate_invariant_step w b0 b1 b2 [] hw
      have hrun : run w ([b0, b1, b2] :: rest) =
          run (get_message w [b0, b1, b2]).world rest := by
        rw [run]
        generalize get_message w [b0, b1, b2] = r at hex
        rcases r with ⟨w1, ex⟩
        simp only at hex
        subst hex
        rfl
      rw [hrun]
      exact ih (fun m hm => h3 m (List.mem_cons_of_mem _ hm)) _ hinv

/-- When what was sent alternates from a note-on, the last message sent is a note-on
exactly when the number sent is odd. -/
theorem last_is_on_iff_odd (l : List (List Nat)) (h : alternates true l = true) :
    (∃ m, l.getLast? = some m ∧ is_note_on m = true) ↔ l.length % 2 = 1 := by
  rcases List.eq_nil_or_concat l with rfl | ⟨l', m, rfl⟩
  · simp
  · rw [List.concat_eq_append] at h ⊢
    rw [alternates_snoc] at h
    simp only [List.getLast?_concat, Option.some.injEq, exists_eq_left', List.length_append,
      List.length_singleton]
    by_cases hl : l'.length % 2 = 0
    · simp [hl] at h
      constructor
      · intro _
        omega
      · intro _
        exact h.2
    · simp [hl] at h
      constructor
      · intro hon
        rw [not_on_of_off m h.2] at hon
        cases hon
      · intro hodd
        omega

/-- One call sends at most one message, after those sent before. -/
theorem get_message_sends_at_most_one (w : World) (m : List Nat) :
    ∃ l, l.length ≤ 1 ∧ (get_message w m).world.sent = w.sent ++ l := by
  by_cases h : m.length < 3
  · refine ⟨[], by simp, ?_⟩
    rw [get_message_short w m h]
    simp [World.emit, World.sent, Event.sent?]
  · match m, h with
    | [], h => simp at h
    | [_], h => simp at h
    | [_, _], h => simp at h
    | b0 :: b1 :: b2 :: tl, _ =>
      rcases (get_message_three w b0 b1 b2 tl).2 with ⟨hsent, -⟩ | ⟨-, -, -, hsent⟩ |
        ⟨-, -, -, hsent⟩
      · exact ⟨[], by simp, by simp [hsent]⟩
      · exact ⟨_, by simp, hsent⟩
      · exact ⟨_, by simp, hsent⟩

/-- C9: from the initial state, after every step of a run over messages of three bytes,
no call has raised, the messages sent so far alternate note-on, note-off, ... from a
note-on, the state is `PLAYING` exactly when an odd number of messages has been sent,
which is exactly when the last message sent is a note-on; and every single call sends at
most one message. -/
theorem emitted_notes_alternate (msgs : List (List Nat)) (h3 : ∀ m ∈ msgs, m.length = 3)
    (k : Nat) :
    (run World.initial (msgs.take k)).exn = none ∧
    alternates true (run World.initial (msgs.take k)).world.sent = true ∧
    ((run World.initial (msgs.take k)).world.state = PLAYING ↔
      (run World.initial (msgs.take k)).world.sent.length % 2 = 1) ∧
    ((run World.initial (msgs.take k)).world.state = PLAYING ↔
      ∃ m, (run World.initial (msgs.take k)).world.sent.getLast? = some m ∧
        is_note_on m = true) ∧
    (∀ (w : World) (m : List Nat),
      ∃ l, l.length ≤ 1 ∧ (get_message w m).world.sent = w.sent ++ l) := by
  obtain ⟨hex, halt, hst⟩ := run_keeps_invariant (msgs.take k)
    (fun m hm => h3 m (List.mem_of_mem_take hm)) World.initial gate_invariant_initial
  exact ⟨hex, halt, hst, hst.trans (last_is_on_iff_odd _ halt).symm,
    get_message_sends_at_most_one⟩

/-! ## Notes sustained downstream -/

/-- The list `sustained out` holds exactly the pairs the words describe: those of a note-on
of `out` that no later note-off of the same pair follows. -/
theorem mem_sustained_iff (out : List (List Nat)) (p : Nat × Nat) :
    p ∈ sustained out ↔
      ∃ l1 m l2, out = l1 ++ m :: l2 ∧ is_note_on m = true ∧ key m = p ∧
        ∀ m' ∈ l2, ¬ (is_note_off m' = true ∧ key m' = p) := by
  induction out with
  | nil => simp [sustained]
  | cons a rest ih =>
    constructor
    · intro hp
      have hp' : (is_note_on a = true ∧
            (∀ m' ∈ rest, ¬ (is_note_off m' = true ∧ key m' = key a)) ∧ p = key a) ∨
          p ∈ sustained rest := by
        unfold sustained at hp
        split at hp
        · rename_i hc
          simp only [Bool.and_eq_true, Bool.not_eq_true', List.any_eq_false, beq_iff_eq,
            not_and] at hc
          rcases List.mem_insert_iff.1 hp with h | h
          · exact Or.inl ⟨hc.1, fun m' hm' hh => hc.2 m' hm' hh.1 hh.2, h⟩
          · exact Or.inr h
        · exact Or.inr hp
      rcases hp' with ⟨hon, hno, rfl⟩ | h
      · exact ⟨[], a, rest, rfl, hon, rfl, hno⟩
      · obtain ⟨l1, m, l2, rfl, hon, hk, hno⟩ := ih.1 h
        exact ⟨a :: l1, m, l2, rfl, hon, hk, hno⟩
    · rintro ⟨l1, m, l2, heq, hon, hk, hno⟩
      have hrest : p ∈ sustained rest → p ∈ sustained (a :: rest) := by
        intro h
        unfold sustained
        split
        · exact List.mem_insert_iff.2 (Or.inr h)
        · exact h
      cases l1 with
      | nil =>
        simp only [List.nil_append, List.cons.injEq] at heq
        obtain ⟨rfl, rfl⟩ := heq
        unfold sustained
        have hc : (is_note_on a && !rest.any (fun m' => is_note_off m' && key m' == key a))
            = true := by
          simp only [Bool.and_eq_true, Bool.not_eq_true', List.any_eq_false, beq_iff_eq,
            not_and]
          exact ⟨hon, fun m' hm' ho hkk => hno m' hm' ⟨ho, hkk.trans hk⟩⟩
        rw [if_pos hc]
        exact List.mem_insert_iff.2 (Or.inl hk.symm)
      | cons b l1 =>
        simp only [List.cons_append, List.cons.injEq] at heq
        obtain ⟨rfl, rfl⟩ := heq
        exact hrest (ih.2 ⟨l1, m, l2, rfl, hon, hk, hno⟩)

/-- The list `sustained out` names each pair once, so its length counts the pairs. -/
theorem sustained_nodup (out : List (List Nat)) : (sustained out).Nodup := by
  induction out with
  | nil => simp [sustained]
  | cons a rest ih =>
    unfold sustained
    split
    · by_cases h : key a ∈ sustained rest
      · rw [List.insert_of_mem h]
        exact ih
      · rw [List.insert_of_not_mem h]
        exact List.nodup_cons.2 ⟨h, ih⟩
    · exact ih

theorem offs_match_tail (a : List Nat) (l : List (List Nat)) (h : offs_match (a :: l) = true) :
    offs_match l = true := by
  cases l with
  | nil => rfl
  | cons b l =>
    simp only [offs_match, Bool.and_eq_true] at h
    cases l with
    | nil => rfl
    | cons c l => exact h.2

/-- When what was sent alternates from a note-on and every note-off repeats the channel and
note of the note-on before it, at most one pair is sustained. -/
theorem sustained_of_matched : ∀ (l : List (List Nat)), alternates true l = true →
    offs_match l = true → (sustained l).length ≤ 1
  | [], _, _ => by simp [sustained]
  | [m], _, _ => by
    unfold sustained
    split <;> simp [sustained]
  | m :: m' :: rest, halt, hmatch => by
    simp only [alternates, Bool.not_true, Bool.not_false, if_true, Bool.and_eq_true,
      Bool.false_eq_true, if_false] at halt
    obtain ⟨-, hoff, halt'⟩ := halt
    have hk : key m' = key m := by
      simp only [offs_match, Bool.and_eq_true, Bool.or_eq_true, Bool.not_eq_true',
        beq_iff_eq] at hmatch
      rcases hmatch.1 with h | h
      · rw [hoff] at h
        cases h
      · exact h
    have hmatch' : offs_match rest = true :=
      offs_match_tail m' rest (offs_match_tail m (m' :: rest) hmatch)
    have h1 : sustained (m :: m' :: rest) = sustained (m' :: rest) := by
      rw [sustained]
      simp [hoff, hk]
    have h2 : sustained (m' :: rest) = sustained rest := by
      rw [sustained]
      simp [not_on_of_off m' hoff]
    rw [h1, h2]
    exact sustained_of_matched rest halt' hmatch'

/-- A list of at most one element has no two different members. -/
theorem eq_of_mem_of_length_le_one {α : Type} (l : List α) (h : l.length ≤ 1) (p q : α)
    (hp : p ∈ l) (hq : q ∈ l) : p = q := by
  match l, h with
  | [], _ => cases hp
  | [a], _ =>
    rw [List.mem_singleton] at hp hq
    rw [hp, hq]
  | _ :: _ :: _, h => simp at h

/-- C4, as the code behaves: from the initial state, after every step of a run over
messages of three bytes up to which every note-off sent carries the channel and note of
the note-on sent just before it, at most one (channel, note) pair is sustained
downstream: any two pairs that each have a note-on sent with no later note-off of the
same pair are the same pair.  (The gate itself does not compare the two.) -/
theorem one_note_sustained_when_offs_match (msgs : List (List Nat))
    (h3 : ∀ m ∈ msgs, m.length = 3) (k : Nat)
    (hmatch : offs_match (run World.initial (msgs.take k)).world.sent = true) :
    (sustained (run World.initial (msgs.take k)).world.sent).length ≤ 1 ∧
    ∀ p q : Nat × Nat,
      (∃ l1 m l2, (run World.initial (msgs.take k)).world.sent = l1 ++ m :: l2 ∧
        is_note_on m = true ∧ key m = p ∧
        ∀ m' ∈ l2, ¬ (is_note_off m' = true ∧ key m' = p)) →
      (∃ l1 m l2, (run World.initial (msgs.take k)).world.sent = l1 ++ m :: l2 ∧
        is_note_on m = true ∧ key m = q ∧
        ∀ m' ∈ l2, ¬ (is_note_off m' = true ∧ key m' = q)) →
      p = q := by
  have hlen : (sustained (run World.initial (msgs.take k)).world.sent).length ≤ 1 :=
    sustained_of_matched _
      (run_keeps_invariant (msgs.take k) (fun m hm => h3 m (List.mem_of_mem_take hm))
        World.initial gate_invariant_initial).2.1
      hmatch
  refine ⟨hlen, fun p q hp hq => ?_⟩
  exact eq_of_mem_of_length_le_one _ hlen p q ((mem_sustained_iff _ p).2 hp)
    ((mem_sustained_iff _ q).2 hq)

theorem one_note_sustained_when_offs_match_witness :
    (sustained (run World.initial
      ([[0x90, 60, 62], [0x90, 64, 62], [0x80, 60, 100], [0x91, 62, 62]].take 4)).world.sent).length
      ≤ 1 :=
  (one_note_sustained_when_offs_match
    [[0x90, 60, 62], [0x90, 64, 62], [0x80, 60, 100], [0x91, 62, 62]] (by decide) 4
    (by decide)).1

/-- C4 as stated fails: after note-on 60, note-off 61, note-on 62 on channel 0, all three
are sent on, and the pairs (0, 60) and (0, 62) are both sustained: each had a note-on sent
and no later note-off of its own. -/
theorem two_notes_sustained :
    (∀ m ∈ [[0x90, 60, 62], [0x80, 61, 0], [0x90, 62, 62]], List.length m = 3) ∧
    (run World.initial [[0x90, 60, 62], [0x80, 61, 0], [0x90, 62, 62]]).world.sent =
      [[0x90, 60, 62], [0x80, 61, 0], [0x90, 62, 62]] ∧
    sustained (run World.initial [[0x90, 60, 62], [0x80, 61, 0], [0x90, 62, 62]]).world.sent =
      [(0, 60), (0, 62)] ∧
    ¬ (sustained
      (run World.initial [[0x90, 60, 62], [0x80, 61, 0], [0x90, 62, 62]]).world.sent).length
      ≤ 1 := by
  decide

theorem emitted_notes_alternate_witness :
    (run World.initial
      ([[0x90, 60, 62], [0x90, 64, 62], [0x80, 60, 100]].take 2)).exn = none ∧
    alternates true (run World.initial
      ([[0x90, 60, 62], [0x90, 64, 62], [0x80, 60, 100]].take 2)).world.sent = true ∧
    ((run World.initial
        ([[0x90, 60, 62], [0x90, 64, 62], [0x80, 60, 100]].take 2)).world.state = PLAYING ↔
      (run World.initial
        ([[0x90, 60, 62], [0x90, 64, 62], [0x80, 60, 100]].take 2)).world.sent.length % 2 = 1) ∧
    ((run World.initial
        ([[0x90, 60, 62], [0x90, 64, 62], [0x80, 60, 100]].take 2)).world.state = PLAYING ↔
      ∃ m, (run World.initial
        ([[0x90, 60, 62], [0x90, 64, 62], [0x80, 60, 100]].take 2)).world.sent.getLast? = some m ∧
        is_note_on m = true) ∧
    (∀ (w : World) (m : List Nat),
      ∃ l, l.length ≤ 1 ∧ (get_message w m).world.sent = w.sent ++ l) :=
  emitted_notes_alternate [[0x90, 60, 62], [0x90, 64, 62], [0x80, 60, 100]] (by decide) 2

end UsbMidiHost
